import Mathlib

/-!
Shallow embedding of `exporter/awscloudwatchlogsexporter/exporter.go`
(AWS CloudWatch Logs exporter of opentelemetry-collector-contrib).

The Go source translates pdata log batches into CloudWatch `InputLogEvent`s
(JSON body + millisecond timestamp), caches one `Pusher` per (log group,
log stream) key, and serializes all `PushLogs` calls behind one mutex.

Modelling conventions:
* `pdata.AttributeValue` is the closed sum `AttributeValue`; the extra
  `unknown` constructor stands for any tag outside the variant set handled
  by the Go `switch` (it reaches the `default` branch).
* `float64` values are carried as their IEEE-754 bit pattern (`Float64`);
  the exporter never computes with them, it only passes them through, and
  `encoding/json` rejects NaN/Inf bit patterns.
* `json.Marshal` of `cwLogBody` is modelled by `goMarshalBody`, which
  produces the decoded JSON object (field/value list) directly, applying
  Go's `omitempty` rule per field type (empty string, zero number, nil
  interface, nil-or-empty map are omitted).
* Go maps `map[string]T` are association lists; `getLogPusher`'s
  lookup-or-insert mutation becomes replace-or-append on those lists.
* The `Pusher` collaborator is abstract: `AddLogEntry`/`ForceFlush` calls
  are recorded in a trace of `PusherOp`, and their results come from an
  environment (`PushEnv`).
-/

/-- IEEE-754 double carried as its 64-bit pattern; the exporter never
computes with doubles, it only forwards them. -/
structure Float64 where
  bits : Nat
deriving DecidableEq, Repr

/-- `encoding/json` refuses NaN and the infinities: exponent bits all ones. -/
def Float64.isNaNOrInf (d : Float64) : Bool :=
  (d.bits / 2 ^ 52) % 2 ^ 11 = 2 ^ 11 - 1

/-- `pdata.AttributeValue`: the tagged variant type the Go switch inspects. -/
inductive AttributeValue where
  | str (s : String)
  | int (i : Int)
  | double (d : Float64)
  | bool (b : Bool)
  | map (entries : List (String × AttributeValue))
  | array (elems : List AttributeValue)
  | empty
  | unknown

/-- A decoded JSON value (what `interface{}` holds after `attrValue`). -/
inductive JsonValue where
  | null
  | str (s : String)
  | int (i : Int)
  | double (d : Float64)
  | bool (b : Bool)
  | obj (fields : List (String × JsonValue))
  | arr (elems : List JsonValue)

/-- Whether the `interface{}` value is the nil interface (`attrValue`'s
`nil` results are exactly `JsonValue.null`). -/
def JsonValue.isNull : JsonValue → Bool
  | .null => true
  | _ => false

mutual
/-- `attrValue` (exporter.go:252-281): total conversion of one attribute
value to a JSON-representable value; map/array recurse, `empty` and the
`default` branch both yield `nil`. -/
def attrValue : AttributeValue → JsonValue
  | .int i => .int i
  | .bool b => .bool b
  | .double d => .double d
  | .str s => .str s
  | .map entries => .obj (attrMapValues entries)
  | .array elems => .arr (attrArrValues elems)
  | .empty => .null
  | .unknown => .null

/-- The `MapVal().Range` loop inside `attrValue`'s map case. -/
def attrMapValues : List (String × AttributeValue) → List (String × JsonValue)
  | [] => []
  | (k, v) :: rest => (k, attrValue v) :: attrMapValues rest

/-- The indexed loop inside `attrValue`'s array case. -/
def attrArrValues : List AttributeValue → List JsonValue
  | [] => []
  | v :: rest => attrValue v :: attrArrValues rest
end

theorem attrMapValues_eq (l : List (String × AttributeValue)) :
    attrMapValues l = l.map (fun p => (p.1, attrValue p.2)) := by
  induction l with
  | nil => rfl
  | cons h t ih => obtain ⟨k, v⟩ := h; simp [attrMapValues, ih]

theorem attrArrValues_eq (l : List AttributeValue) :
    attrArrValues l = l.map attrValue := by
  induction l with
  | nil => rfl
  | cons h t ih => simp [attrArrValues, ih]

/-- `attrsValue` (exporter.go:240-250): a zero-entry collection yields the
nil map, otherwise every entry is flattened. -/
def attrsValue (attrs : List (String × AttributeValue)) :
    Option (List (String × JsonValue)) :=
  if attrs.length = 0 then none
  else some (attrs.map (fun p => (p.1, attrValue p.2)))

/-- Lower-case hex digit, as `encoding/hex` uses. -/
def hexDigit (n : Nat) : Char :=
  if n < 10 then Char.ofNat (48 + n) else Char.ofNat (87 + n)

/-- Hex encoding of a byte sequence (`TraceID.HexString` / `SpanID.HexString`). -/
def hexString (bytes : List Nat) : String :=
  String.mk (bytes.flatMap (fun b => [hexDigit (b / 16), hexDigit (b % 16)]))

/-- `pdata` trace/span ids are fixed-width byte arrays; `IsEmpty` holds when
every byte is zero. -/
def idIsEmpty (bytes : List Nat) : Bool :=
  bytes.all (· = 0)

/-- `pdata.LogRecord`: the slice of the record the exporter reads. -/
structure LogRecord where
  name : String
  body : AttributeValue
  severityNumber : Int
  severityText : String
  droppedAttributesCount : Nat
  flags : Nat
  traceID : List Nat
  spanID : List Nat
  attributes : List (String × AttributeValue)
  timestamp : Nat

/-- `cwLogBody` (exporter.go:197-208): the JSON projection of a record.
`Body` is the `interface{}` field (`JsonValue.null` = nil interface);
`Attributes`/`Resource` are Go maps (`none` = nil map). -/
structure cwLogBody where
  Name : String
  Body : JsonValue
  SeverityNumber : Int
  SeverityText : String
  DroppedAttributesCount : Nat
  Flags : Nat
  TraceID : String
  SpanID : String
  Attributes : Option (List (String × JsonValue))
  Resource : Option (List (String × JsonValue))

/-- `json.Marshal` of `cwLogBody`, modelled as the decoded object it
produces: struct fields in declaration order, each dropped by `omitempty`
exactly when its Go value is empty (empty string, zero number, nil
interface, nil-or-length-zero map). -/
def goMarshalBody (b : cwLogBody) : List (String × JsonValue) :=
  (if b.Name = "" then [] else [("name", .str b.Name)]) ++
  (if b.Body.isNull then [] else [("body", b.Body)]) ++
  (if b.SeverityNumber = 0 then []
   else [("severity_number", .int b.SeverityNumber)]) ++
  (if b.SeverityText = "" then [] else [("severity_text", .str b.SeverityText)]) ++
  (if b.DroppedAttributesCount = 0 then []
   else [("dropped_attributes_count", .int (b.DroppedAttributesCount : Int))]) ++
  (if b.Flags = 0 then [] else [("flags", .int (b.Flags : Int))]) ++
  (if b.TraceID = "" then [] else [("trace_id", .str b.TraceID)]) ++
  (if b.SpanID = "" then [] else [("span_id", .str b.SpanID)]) ++
  (match b.Attributes with
   | none => []
   | some m => if m.length = 0 then [] else [("attributes", .obj m)]) ++
  (match b.Resource with
   | none => []
   | some m => if m.length = 0 then [] else [("resource", .obj m)])

mutual
/-- Whether `encoding/json` accepts the value: everything except a NaN or
infinite double (`json.UnsupportedValueError`). -/
def jsonOk : JsonValue → Bool
  | .null => true
  | .str _ => true
  | .int _ => true
  | .bool _ => true
  | .double d => !d.isNaNOrInf
  | .obj fs => jsonOkFields fs
  | .arr es => jsonOkElems es

/-- `jsonOk` over an object's fields. -/
def jsonOkFields : List (String × JsonValue) → Bool
  | [] => true
  | (_, v) :: rest => jsonOk v && jsonOkFields rest

/-- `jsonOk` over an array's elements. -/
def jsonOkElems : List JsonValue → Bool
  | [] => true
  | v :: rest => jsonOk v && jsonOkElems rest
end

/-- Go's conversion `int64(x)` of a `uint64` value. -/
def goInt64OfUInt64 (n : Nat) : Int :=
  if n < 2 ^ 63 then (n : Int) else (n : Int) - 2 ^ 64

/-- `int64(log.Timestamp()) / int64(time.Millisecond)`: Go integer division
truncates toward zero, and `time.Millisecond` is 1e6 nanoseconds. -/
def eventTimestamp (ns : Nat) : Int :=
  Int.tdiv (goInt64OfUInt64 ns) 1000000

/-- `cloudwatchlogs.InputLogEvent`, with the message kept as the decoded
JSON object (see `goMarshalBody`). -/
structure InputLogEvent where
  timestamp : Int
  message : List (String × JsonValue)

/-- The `cwLogBody` built by `logToCWLog` (exporter.go:213-228): base
fields, then the hex trace/span fields only for non-empty ids, then record
attributes and the resource map. -/
def logBody (resourceAttrs : Option (List (String × JsonValue)))
    (log : LogRecord) : cwLogBody :=
  let body0 : cwLogBody := {
    Name := log.name
    Body := attrValue log.body
    SeverityNumber := log.severityNumber
    SeverityText := log.severityText
    DroppedAttributesCount := log.droppedAttributesCount
    Flags := log.flags
    TraceID := ""
    SpanID := ""
    Attributes := none
    Resource := none }
  let body1 := if idIsEmpty log.traceID then body0
    else { body0 with TraceID := hexString log.traceID }
  let body2 := if idIsEmpty log.spanID then body1
    else { body1 with SpanID := hexString log.spanID }
  { body2 with
    Attributes := attrsValue log.attributes
    Resource := resourceAttrs }

/-- `logToCWLog` (exporter.go:210-238): build the `cwLogBody`, marshal it
(the only failure point), and wrap with the millisecond timestamp. -/
def logToCWLog (resourceAttrs : Option (List (String × JsonValue)))
    (log : LogRecord) : Except String InputLogEvent :=
  if jsonOkFields (goMarshalBody (logBody resourceAttrs log)) then
    .ok { timestamp := eventTimestamp log.timestamp
          message := goMarshalBody (logBody resourceAttrs log) }
  else
    .error "json: unsupported value"

/-- First-match lookup in an association list (a Go map access `m[k]`). -/
def assocLookup (k : String) : List (String × α) → Option α
  | [] => none
  | (k', v) :: rest => if k' = k then some v else assocLookup k rest

/-- Replace-or-append update of an association list (a Go map store
`m[k] = v`). -/
def assocSet (k : String) (v : α) : List (String × α) → List (String × α)
  | [] => [(k, v)]
  | (k', v') :: rest =>
      if k' = k then (k, v) :: rest else (k', v') :: assocSet k v rest

/-- The mutable part of the `exporter` struct that `getLogPusher` touches.
Pushers are identified by the order of their construction
(`nextPusherID` counts `cwlogs.NewPusher` invocations). -/
structure Registry where
  groupStreamToPusherMap : List (String × List (String × Nat))
  nextPusherID : Nat

/-- The registry as built in `newCwLogsExporter` (exporter.go:81): empty. -/
def Registry.init : Registry :=
  { groupStreamToPusherMap := [], nextPusherID := 0 }

/-- `getLogPusher` (exporter.go:146-162): fetch-or-create the stream map of
the group, then fetch-or-construct the stream's pusher, caching any new
pusher before returning it. -/
def getLogPusher (e : Registry) (logGroup logStream : String) :
    Nat × Registry :=
  let streamToPusherMap :=
    (assocLookup logGroup e.groupStreamToPusherMap).getD []
  match assocLookup logStream streamToPusherMap with
  | some logPusher => (logPusher, e)
  | none =>
      let logPusher := e.nextPusherID
      ( logPusher,
        { groupStreamToPusherMap :=
            assocSet logGroup (assocSet logStream logPusher streamToPusherMap)
              e.groupStreamToPusherMap
          nextPusherID := e.nextPusherID + 1 } )

/-- `pdata.InstrumentationLibraryLogs`: one scope group's records. -/
structure ScopeLogs where
  logRecords : List LogRecord

/-- `pdata.ResourceLogs`: resource attributes plus scope groups. -/
structure ResourceLogs where
  resourceAttributes : List (String × AttributeValue)
  instrumentationLibraryLogs : List ScopeLogs

/-- `pdata.Logs`: the batch handed to `PushLogs`. -/
structure Logs where
  resourceLogs : List ResourceLogs

/-- The record loop of `logsToCWLogs` (exporter.go:182-191): translate each
record, appending successes in order and counting failures as dropped. -/
def cwLogsOfRecords (resourceAttrs : Option (List (String × JsonValue))) :
    List LogRecord → List InputLogEvent × Nat
  | [] => ([], 0)
  | log :: rest =>
      let tail := cwLogsOfRecords resourceAttrs rest
      match logToCWLog resourceAttrs log with
      | .error _ => (tail.1, tail.2 + 1)
      | .ok event => (event :: tail.1, tail.2)

/-- The scope loop of `logsToCWLogs` (exporter.go:179-192). -/
def cwLogsOfScopes (resourceAttrs : Option (List (String × JsonValue))) :
    List ScopeLogs → List InputLogEvent × Nat
  | [] => ([], 0)
  | ils :: rest =>
      let head := cwLogsOfRecords resourceAttrs ils.logRecords
      let tail := cwLogsOfScopes resourceAttrs rest
      (head.1 ++ tail.1, head.2 + tail.2)

/-- The resource loop of `logsToCWLogs` (exporter.go:174-193): resource
attributes are flattened once per group and shared by its records. -/
def cwLogsOfResources : List ResourceLogs → List InputLogEvent × Nat
  | [] => ([], 0)
  | rl :: rest =>
      let resourceAttrs := attrsValue rl.resourceAttributes
      let head := cwLogsOfScopes resourceAttrs rl.instrumentationLibraryLogs
      let tail := cwLogsOfResources rest
      (head.1 ++ tail.1, head.2 + tail.2)

/-- `logsToCWLogs` (exporter.go:164-195). -/
def logsToCWLogs (ld : Logs) : List InputLogEvent × Nat :=
  if ld.resourceLogs.length = 0 then ([], 0)
  else cwLogsOfResources ld.resourceLogs

/-- The static exporter configuration `PushLogs` reads. -/
structure Config where
  LogGroupName : String
  LogStreamName : String

/-- A call into the `Pusher` collaborator, tagged with the identity of the
pusher it is made on. -/
inductive PusherOp where
  | addLogEntry (pusher : Nat) (event : InputLogEvent)
  | forceFlush (pusher : Nat)

/-- Results the abstract `Pusher` returns: the error of the i-th
`AddLogEntry` call and of the final `ForceFlush` (`none` = nil error). -/
structure PushEnv where
  addResult : Nat → Option String
  flushResult : Option String

/-- Observable outcome of one `PushLogs` call: the returned error, the
registry afterwards, the calls made into the pusher, and how many
append-failure log lines were emitted. -/
structure PushOutcome where
  result : Option String
  registry : Registry
  trace : List PusherOp
  appendErrorsLogged : Nat

/-- `PushLogs` (exporter.go:93-126), the body inside the `seqTokenMu`
critical section: resolve the configured destination's pusher, translate
the batch, return nil on zero events, otherwise append every event
(logging but ignoring per-event errors) and return the `ForceFlush`
result. -/
def PushLogs (cfg : Config) (env : PushEnv) (e : Registry) (ld : Logs) :
    PushOutcome :=
  let resolved := getLogPusher e cfg.LogGroupName cfg.LogStreamName
  let cwLogsPusher := resolved.1
  let logEvents := (logsToCWLogs ld).1
  if logEvents.length = 0 then
    { result := none, registry := resolved.2, trace := [],
      appendErrorsLogged := 0 }
  else
    { result := env.flushResult
      registry := resolved.2
      trace := logEvents.map (PusherOp.addLogEntry cwLogsPusher)
                 ++ [PusherOp.forceFlush cwLogsPusher]
      appendErrorsLogged :=
        (List.range logEvents.length).countP
          (fun i => (env.addResult i).isSome) }

/-- Observable outcome of `Shutdown`. -/
structure ShutdownOutcome where
  result : Option String
  registry : Registry
  trace : List PusherOp

/-- `Shutdown` (exporter.go:136-141): flush the pusher of the statically
configured destination, discard the flush error, return nil. -/
def Shutdown (cfg : Config) (e : Registry) : ShutdownOutcome :=
  let resolved := getLogPusher e cfg.LogGroupName cfg.LogStreamName
  { result := none
    registry := resolved.2
    trace := [PusherOp.forceFlush resolved.1] }

/-- The records of a batch in program order (resource-group index, then
scope index, then record index), each paired with its group's flattened
resource attributes. -/
def flattenRecords (ld : Logs) :
    List (Option (List (String × JsonValue)) × LogRecord) :=
  ld.resourceLogs.flatMap (fun rl =>
    rl.instrumentationLibraryLogs.flatMap (fun ils =>
      ils.logRecords.map (fun log => (attrsValue rl.resourceAttributes, log))))

/-- Spec-side field-presence list (spec §3 and §8): the serialized body
carries exactly the fields whose source is non-empty/non-zero — name,
flattened body, severity number/text, dropped-attribute count, flags, the
ids only when non-empty, and non-empty attribute/resource maps. Stated
from the spec's words, to be compared with `goMarshalBody ∘ logBody`. -/
def specPresentFields (resourceAttrs : Option (List (String × JsonValue)))
    (log : LogRecord) : List String :=
  (if log.name = "" then [] else ["name"]) ++
  (if (attrValue log.body).isNull then [] else ["body"]) ++
  (if log.severityNumber = 0 then [] else ["severity_number"]) ++
  (if log.severityText = "" then [] else ["severity_text"]) ++
  (if log.droppedAttributesCount = 0 then [] else ["dropped_attributes_count"]) ++
  (if log.flags = 0 then [] else ["flags"]) ++
  (if idIsEmpty log.traceID then [] else ["trace_id"]) ++
  (if idIsEmpty log.spanID then [] else ["span_id"]) ++
  (if log.attributes.isEmpty then [] else ["attributes"]) ++
  (match resourceAttrs with
   | none => []
   | some m => if m.isEmpty then [] else ["resource"])

/-- The pusher bound to (`g`, `s`) in the registry, if any (reading the
two-level map the way `getLogPusher` does). -/
def resolvedPusher (e : Registry) (g s : String) : Option Nat :=
  assocLookup s ((assocLookup g e.groupStreamToPusherMap).getD [])

/-- Run a sequence of `getLogPusher` calls, threading the registry. -/
def runGetLogPusher (e : Registry) : List (String × String) → Registry
  | [] => e
  | k :: ks => runGetLogPusher (getLogPusher e k.1 k.2).2 ks

/-- How many of the calls in `ks` (run in order from `e`) construct a
pusher for the key (`g`, `s`): a call constructs exactly when its key is
unbound at the moment of the call. -/
def constructionsFor (g s : String) (e : Registry) :
    List (String × String) → Nat
  | [] => 0
  | k :: ks =>
      (if k.1 = g ∧ k.2 = s ∧ resolvedPusher e g s = none then 1 else 0)
      + constructionsFor g s (getLogPusher e k.1 k.2).2 ks

/-!
Concurrency model for `PushLogs` (exporter.go:93-126, field `seqTokenMu`
at exporter.go:44): every call runs `seqTokenMu.Lock()`, then its append
sequence, then `ForceFlush`, then the deferred `Unlock()`. Threads are an
arbitrary type `T`; `batch t` is how many events thread `t`'s call
appends. Only the `Lock` step inspects the mutex — the append and flush
steps fire on program position alone, exactly as the Go statements do; the
serialization property is derived, not assumed.
-/

/-- Program position of one `PushLogs` call: before `Lock`, appending with
`k` events left, past `ForceFlush`, or returned (after `Unlock`). -/
inductive ThreadPC where
  | start
  | working (k : Nat)
  | flushed
  | done

/-- Shared state: who holds `seqTokenMu`, and each thread's position. -/
structure MutexState (T : Type) where
  lock : Option T
  pcs : T → ThreadPC

/-- An observable call into the pusher, tagged with the calling thread. -/
inductive CritEvent (T : Type) where
  | append (t : T)
  | flush (t : T)

/-- The thread that performed the event. -/
def CritEvent.owner : CritEvent T → T
  | .append t => t
  | .flush t => t

/-- A configuration: shared state plus the trace of pusher calls so far. -/
structure MutexCfg (T : Type) where
  state : MutexState T
  trace : List (CritEvent T)

/-- Point update of the thread-position map. -/
def updatePC [DecidableEq T] (pcs : T → ThreadPC) (t : T) (pc : ThreadPC) :
    T → ThreadPC :=
  fun t' => if t' = t then pc else pcs t'

/-- Interleaving small-step semantics of concurrent `PushLogs` calls:
`lock` blocks until the mutex is free; `append` and `flush` emit pusher
calls; `unlock` is the deferred release. -/
inductive PushStep [DecidableEq T] (batch : T → Nat) :
    MutexCfg T → MutexCfg T → Prop where
  | lock (t : T) (c : MutexCfg T)
      (h1 : c.state.pcs t = .start) (h2 : c.state.lock = none) :
      PushStep batch c
        ⟨⟨some t, updatePC c.state.pcs t (.working (batch t))⟩, c.trace⟩
  | append (t : T) (k : Nat) (c : MutexCfg T)
      (h : c.state.pcs t = .working (k + 1)) :
      PushStep batch c
        ⟨⟨c.state.lock, updatePC c.state.pcs t (.working k)⟩,
          c.trace ++ [.append t]⟩
  | flush (t : T) (c : MutexCfg T) (h : c.state.pcs t = .working 0) :
      PushStep batch c
        ⟨⟨c.state.lock, updatePC c.state.pcs t .flushed⟩,
          c.trace ++ [.flush t]⟩
  | unlock (t : T) (c : MutexCfg T) (h : c.state.pcs t = .flushed) :
      PushStep batch c ⟨⟨none, updatePC c.state.pcs t .done⟩, c.trace⟩

/-- Zero or more interleaved steps. -/
inductive Reaches [DecidableEq T] (batch : T → Nat) :
    MutexCfg T → MutexCfg T → Prop where
  | refl (c : MutexCfg T) : Reaches batch c c
  | tail {a b c : MutexCfg T} :
      Reaches batch a b → PushStep batch b c → Reaches batch a c

/-- All calls pending, mutex free, nothing appended yet. -/
def initCfg (T : Type) : MutexCfg T :=
  ⟨⟨none, fun _ => .start⟩, []⟩

/-- Thread `t`'s pusher calls form one contiguous block of the trace: no
other thread's append or flush falls between two of `t`'s. -/
def Contig (t : T) (tr : List (CritEvent T)) : Prop :=
  ∃ pre mid post, tr = pre ++ mid ++ post ∧
    (∀ e ∈ pre, e.owner ≠ t) ∧
    (∀ e ∈ mid, e.owner = t) ∧
    (∀ e ∈ post, e.owner ≠ t)

/-- Inductive invariant of the interleaving semantics: a thread before its
`Lock` has no events yet; a thread between `Lock` and `Unlock` holds the
mutex; the holder's events are a suffix of the trace; every thread's
events are contiguous. -/
def MutexInv (c : MutexCfg T) : Prop :=
  (∀ t : T, c.state.pcs t = .start → ∀ e ∈ c.trace, e.owner ≠ t) ∧
  (∀ t : T, (∃ k, c.state.pcs t = .working k) ∨ c.state.pcs t = .flushed →
    c.state.lock = some t) ∧
  (∀ t : T, c.state.lock = some t →
    ∃ pre mid, c.trace = pre ++ mid ∧
      (∀ e ∈ pre, e.owner ≠ t) ∧ (∀ e ∈ mid, e.owner = t)) ∧
  (∀ t : T, Contig t c.trace)

/-- Base record: every source field absent/zero. -/
def emptyRecord : LogRecord :=
  { name := "", body := .empty, severityNumber := 0, severityText := ""
    droppedAttributesCount := 0, flags := 0
    traceID := List.replicate 16 0, spanID := List.replicate 8 0
    attributes := [], timestamp := 0 }

/-- A quiet NaN: `json.Marshal` rejects it, so a record carrying it as its
body is the concrete translation failure. -/
def nanDouble : Float64 := ⟨0x7FF8000000000000⟩

/-- A record whose translation fails (NaN body). -/
def badRecord : LogRecord := { emptyRecord with body := .double nanDouble }

/-- A fixed exporter configuration for concrete runs. -/
def cfg0 : Config := { LogGroupName := "group", LogStreamName := "stream" }

/-- A record with every serializable field populated except the span id. -/
def richRecord : LogRecord :=
  { name := "n", body := .str "b", severityNumber := 5, severityText := "INFO"
    droppedAttributesCount := 2, flags := 1
    traceID := 0x11 :: List.replicate 15 0, spanID := List.replicate 8 0
    attributes := [("k", .int 7)], timestamp := 3 }

/-- The event `richRecord` translates to. -/
def richEvent : InputLogEvent :=
  { timestamp := 0
    message :=
      [("name", .str "n"), ("body", .str "b"), ("severity_number", .int 5),
       ("severity_text", .str "INFO"), ("dropped_attributes_count", .int 2),
       ("flags", .int 1),
       ("trace_id", .str "11000000000000000000000000000000"),
       ("attributes", .obj [("k", .int 7)]),
       ("resource", .obj [("r", .str "v")])] }

/-- A five-record batch whose third record fails translation. -/
def batch5 : Logs :=
  { resourceLogs := [
      { resourceAttributes := []
        instrumentationLibraryLogs := [
          { logRecords := [
              { emptyRecord with timestamp := 1 },
              { emptyRecord with timestamp := 2 },
              { badRecord with timestamp := 3 },
              { emptyRecord with timestamp := 4 },
              { emptyRecord with timestamp := 5 } ] } ] } ] }

/-- A batch with one translatable record. -/
def singleBatch : Logs :=
  { resourceLogs := [
      { resourceAttributes := []
        instrumentationLibraryLogs := [ { logRecords := [emptyRecord] } ] } ] }

/-- A batch whose every record fails translation. -/
def badBatch : Logs :=
  { resourceLogs := [
      { resourceAttributes := []
        instrumentationLibraryLogs := [ { logRecords := [badRecord] } ] } ] }

/-!
Theorems. Helper lemmas come first, then one theorem per claim (with a
closed witness where the theorem carries hypotheses).
-/

theorem logToCWLog_ok_elim (ra : Option (List (String × JsonValue)))
    (log : LogRecord) (ev : InputLogEvent)
    (h : logToCWLog ra log = .ok ev) :
    ev = { timestamp := eventTimestamp log.timestamp
           message := goMarshalBody (logBody ra log) } := by
  unfold logToCWLog at h
  split at h
  · injection h with h'
    exact h'.symm
  · simp at h

theorem logBody_fields (ra : Option (List (String × JsonValue)))
    (log : LogRecord) :
    logBody ra log = {
      Name := log.name
      Body := attrValue log.body
      SeverityNumber := log.severityNumber
      SeverityText := log.severityText
      DroppedAttributesCount := log.droppedAttributesCount
      Flags := log.flags
      TraceID := if idIsEmpty log.traceID then "" else hexString log.traceID
      SpanID := if idIsEmpty log.spanID then "" else hexString log.spanID
      Attributes := attrsValue log.attributes
      Resource := ra } := by
  unfold logBody
  by_cases h1 : idIsEmpty log.traceID <;> by_cases h2 : idIsEmpty log.spanID <;>
    simp [h1, h2]

theorem hexString_ne_empty (bytes : List Nat) (h : bytes ≠ []) :
    hexString bytes ≠ "" := by
  cases bytes with
  | nil => exact absurd rfl h
  | cons b rest =>
    intro hcon
    have : (List.cons b rest).flatMap
        (fun b => [hexDigit (b / 16), hexDigit (b % 16)]) = [] := by
      have := congrArg String.data hcon
      simp [hexString] at this
    simp [List.flatMap_cons] at this

/-- C8: the Attribute Flattener (`attrValue`) is total over the variant
set — it is a Lean function, so it terminates on every (recursively
nested) attribute value; scalars map to themselves; an array maps
element-wise to an ordered sequence preserving original order (an empty
array to the empty sequence); the empty variant and any unrecognized
variant both map to the null representation. -/
theorem attrValue_total_over_variants :
    (∀ s, attrValue (.str s) = .str s) ∧
    (∀ i, attrValue (.int i) = .int i) ∧
    (∀ d, attrValue (.double d) = .double d) ∧
    (∀ b, attrValue (.bool b) = .bool b) ∧
    (∀ elems, attrValue (.array elems) = .arr (elems.map attrValue)) ∧
    attrValue (.array []) = .arr [] ∧
    attrValue .empty = .null ∧
    attrValue .unknown = .null := by
  refine ⟨fun _ => rfl, fun _ => rfl, fun _ => rfl, fun _ => rfl,
    fun elems => ?_, rfl, rfl, rfl⟩
  show JsonValue.arr (attrArrValues elems) = .arr (elems.map attrValue)
  rw [attrArrValues_eq]

/-- C5 (amended): for every record that translates successfully whose
`uint64` nanosecond timestamp is below 2^63 (the int64 range), the event
timestamp is the nanosecond timestamp integer-divided by one million,
truncating. The restriction is forced by the code: for larger timestamps
the `int64(log.Timestamp())` conversion wraps negative, so the unrestricted
claim fails — see the counterexample below. -/
theorem logToCWLog_timestamp_truncating
    (ra : Option (List (String × JsonValue))) (log : LogRecord)
    (ev : InputLogEvent) (hok : logToCWLog ra log = .ok ev)
    (hrange : log.timestamp < 2 ^ 63) :
    ev.timestamp = ((log.timestamp / 1000000 : Nat) : Int) := by
  rw [logToCWLog_ok_elim ra log ev hok]
  show eventTimestamp log.timestamp = _
  unfold eventTimestamp goInt64OfUInt64
  rw [if_pos hrange]
  exact_mod_cast (Int.ofNat_tdiv log.timestamp 1000000).symm

/-- Witness for C5: 1,500,000 ns yields 1 ms, and 1,999,999 ns also
yields 1 ms (truncation, no rounding at halves). -/
theorem logToCWLog_timestamp_truncating_witness :
    ((1500000 : Nat) < 2 ^ 63) ∧
    (({ timestamp := 1, message := [] } : InputLogEvent).timestamp
      = ((1500000 / 1000000 : Nat) : Int)) ∧
    (({ timestamp := 1, message := [] } : InputLogEvent).timestamp
      = ((1999999 / 1000000 : Nat) : Int)) :=
  ⟨by norm_num,
   logToCWLog_timestamp_truncating none
     { emptyRecord with timestamp := 1500000 }
     { timestamp := 1, message := [] } rfl (by norm_num),
   logToCWLog_timestamp_truncating none
     { emptyRecord with timestamp := 1999999 }
     { timestamp := 1, message := [] } rfl (by norm_num)⟩

/-- Counterexample for C5 as originally stated: a record with timestamp
2^63 ns still translates successfully (marshalling never touches the
timestamp), but the event timestamp is the truncating division of the
wrapped `int64` value, −9,223,372,036,854 ms, not
2^63 / 1,000,000 = +9,223,372,036,854 ms. -/
theorem logToCWLog_timestamp_wraps_counterexample :
    logToCWLog none { emptyRecord with timestamp := 2 ^ 63 }
        = .ok { timestamp := -9223372036854, message := [] } ∧
    (-9223372036854 : Int) ≠ ((2 ^ 63 / 1000000 : Nat) : Int) :=
  ⟨rfl, by decide⟩

theorem map_fst_seg (c : Prop) [Decidable c] (k : String) (v : JsonValue) :
    (if c then ([] : List (String × JsonValue)) else [(k, v)]).map Prod.fst
      = if c then [] else [k] := by
  by_cases h : c <;> simp [h]

theorem map_fst_matchseg (mo : Option (List (String × JsonValue)))
    (k : String) :
    (match mo with
     | none => ([] : List (String × JsonValue))
     | some m => if m.length = 0 then [] else [(k, .obj m)]).map Prod.fst
    = match mo with
      | none => []
      | some m => if m.length = 0 then [] else [k] := by
  cases mo with
  | none => rfl
  | some m => by_cases h : m.length = 0 <;> simp [h]

/-- C3: for every successfully translated record, the decoded JSON message
carries exactly the non-empty/non-zero fields — name, body, severity
number, severity text, dropped-attribute count, flags, hex trace id, hex
span id, attributes, resource — with absent/zero-value source fields
omitted (not null, not zero): no extra fields, no missing fields. -/
theorem logToCWLog_field_set
    (ra : Option (List (String × JsonValue))) (log : LogRecord)
    (ev : InputLogEvent) (hok : logToCWLog ra log = .ok ev) :
    ev.message.map Prod.fst = specPresentFields ra log := by
  rw [logToCWLog_ok_elim ra log ev hok]
  clear hok
  show (goMarshalBody (logBody ra log)).map Prod.fst = _
  rw [logBody_fields]
  unfold goMarshalBody specPresentFields
  dsimp only
  rw [List.map_append, List.map_append, List.map_append, List.map_append,
    List.map_append, List.map_append, List.map_append, List.map_append,
    List.map_append]
  rw [map_fst_seg, map_fst_seg, map_fst_seg, map_fst_seg, map_fst_seg,
    map_fst_seg, map_fst_seg, map_fst_seg, map_fst_matchseg, map_fst_matchseg]
  have htr : (if (if idIsEmpty log.traceID = true then "" else hexString log.traceID) = "" then ([] : List String) else ["trace_id"]) = if idIsEmpty log.traceID = true then [] else ["trace_id"] := by
    by_cases h : idIsEmpty log.traceID
    · simp [h]
    · have hne : log.traceID ≠ [] := by
        intro hnil
        rw [hnil] at h
        exact h rfl
      simp [h, hexString_ne_empty _ hne]
  have hsp : (if (if idIsEmpty log.spanID = true then "" else hexString log.spanID) = "" then ([] : List String) else ["span_id"]) = if idIsEmpty log.spanID = true then [] else ["span_id"] := by
    by_cases h : idIsEmpty log.spanID
    · simp [h]
    · have hne : log.spanID ≠ [] := by
        intro hnil
        rw [hnil] at h
        exact h rfl
      simp [h, hexString_ne_empty _ hne]
  have hat : (match attrsValue log.attributes with | none => ([] : List String) | some m => if m.length = 0 then [] else ["attributes"]) = if log.attributes.isEmpty = true then [] else ["attributes"] := by
    cases log.attributes with
    | nil => simp [attrsValue]
    | cons a t => simp [attrsValue]
  have hres : (match ra with | none => ([] : List String) | some m => if m.length = 0 then [] else ["resource"]) = match ra with | none => [] | some m => if m.isEmpty = true then [] else ["resource"] := by
    cases ra with
    | none => rfl
    | some m => cases m <;> simp
  rw [htr, hsp, hat, hres]

/-- Witness for C3: a record with all fields but the span id populated
maps to a message whose field set is exactly the nine present fields. -/
theorem logToCWLog_field_set_witness :
    richEvent.message.map Prod.fst
      = specPresentFields (some [("r", .str "v")]) richRecord :=
  logToCWLog_field_set (some [("r", .str "v")]) richRecord richEvent rfl

theorem cwLogsOfRecords_fst (ra : Option (List (String × JsonValue)))
    (logs : List LogRecord) :
    (cwLogsOfRecords ra logs).1
      = logs.filterMap (fun log => (logToCWLog ra log).toOption) := by
  induction logs with
  | nil => rfl
  | cons l t ih =>
    simp only [cwLogsOfRecords, List.filterMap_cons]
    cases hl : logToCWLog ra l <;> simp [hl, Except.toOption, ih]

theorem cwLogsOfRecords_snd (ra : Option (List (String × JsonValue)))
    (logs : List LogRecord) :
    (cwLogsOfRecords ra logs).2
      = logs.countP (fun log => (logToCWLog ra log).toOption.isNone) := by
  induction logs with
  | nil => rfl
  | cons l t ih =>
    simp only [cwLogsOfRecords, List.countP_cons]
    cases hl : logToCWLog ra l <;> simp [hl, Except.toOption, ih]

theorem cwLogsOfScopes_fst (ra : Option (List (String × JsonValue)))
    (ills : List ScopeLogs) :
    (cwLogsOfScopes ra ills).1
      = (ills.flatMap (fun ils => ils.logRecords)).filterMap
          (fun log => (logToCWLog ra log).toOption) := by
  induction ills with
  | nil => rfl
  | cons ils rest ih =>
    simp only [cwLogsOfScopes, List.flatMap_cons, List.filterMap_append,
      cwLogsOfRecords_fst, ih]

theorem cwLogsOfScopes_snd (ra : Option (List (String × JsonValue)))
    (ills : List ScopeLogs) :
    (cwLogsOfScopes ra ills).2
      = (ills.flatMap (fun ils => ils.logRecords)).countP
          (fun log => (logToCWLog ra log).toOption.isNone) := by
  induction ills with
  | nil => rfl
  | cons ils rest ih =>
    simp only [cwLogsOfScopes, List.flatMap_cons, List.countP_append,
      cwLogsOfRecords_snd, ih]

theorem cwLogsOfResources_fst (rls : List ResourceLogs) :
    (cwLogsOfResources rls).1
      = (rls.flatMap (fun rl =>
          rl.instrumentationLibraryLogs.flatMap (fun ils =>
            ils.logRecords.map
              (fun log => (attrsValue rl.resourceAttributes, log))))).filterMap
          (fun x => (logToCWLog x.1 x.2).toOption) := by
  induction rls with
  | nil => rfl
  | cons rl rest ih =>
    simp only [cwLogsOfResources, List.flatMap_cons, List.filterMap_append, ih]
    congr 1
    rw [cwLogsOfScopes_fst, ← List.map_flatMap, List.filterMap_map]
    rfl

theorem cwLogsOfResources_snd (rls : List ResourceLogs) :
    (cwLogsOfResources rls).2
      = (rls.flatMap (fun rl =>
          rl.instrumentationLibraryLogs.flatMap (fun ils =>
            ils.logRecords.map
              (fun log => (attrsValue rl.resourceAttributes, log))))).countP
          (fun x => (logToCWLog x.1 x.2).toOption.isNone) := by
  induction rls with
  | nil => rfl
  | cons rl rest ih =>
    simp only [cwLogsOfResources, List.flatMap_cons, List.countP_append, ih]
    congr 1
    rw [cwLogsOfScopes_snd, ← List.map_flatMap, List.countP_map]
    rfl

theorem logsToCWLogs_events (ld : Logs) :
    (logsToCWLogs ld).1
      = (flattenRecords ld).filterMap
          (fun x => (logToCWLog x.1 x.2).toOption) := by
  unfold logsToCWLogs flattenRecords
  split
  · rename_i h
    rw [List.length_eq_zero.mp h]
    rfl
  · exact cwLogsOfResources_fst _

theorem logsToCWLogs_dropped (ld : Logs) :
    (logsToCWLogs ld).2
      = (flattenRecords ld).countP
          (fun x => (logToCWLog x.1 x.2).toOption.isNone) := by
  unfold logsToCWLogs flattenRecords
  split
  · rename_i h
    rw [List.length_eq_zero.mp h]
    rfl
  · exact cwLogsOfResources_snd _

theorem length_filterMap_add_countP (f : α → Option β) (l : List α) :
    (l.filterMap f).length + l.countP (fun x => (f x).isNone) = l.length := by
  induction l with
  | nil => rfl
  | cons a t ih =>
    cases h : f a <;>
      simp [List.filterMap_cons, List.countP_cons, h] <;> omega

/-- C10: within one `PushLogs` call, the successfully translated events
are appended to the pusher in exactly batch order (resource-group index,
then scope index, then record index — the order of `flattenRecords`),
with failed records removed and no reordering or duplication, followed by
the single flush. -/
theorem PushLogs_trace_in_batch_order (cfg : Config) (env : PushEnv)
    (e : Registry) (ld : Logs) :
    (PushLogs cfg env e ld).trace =
      (let p := (getLogPusher e cfg.LogGroupName cfg.LogStreamName).1
       let evs := (flattenRecords ld).filterMap
         (fun x => (logToCWLog x.1 x.2).toOption)
       if evs.length = 0 then []
       else evs.map (PusherOp.addLogEntry p) ++ [PusherOp.forceFlush p]) := by
  simp only [PushLogs]
  rw [logsToCWLogs_events]
  split <;> rfl

/-- C7: per-record translation failures drop exactly the failing records:
the dropped count is the number of failing records, appended events plus
dropped records account for the whole batch, and with a succeeding flush
the call returns no error. -/
theorem logsToCWLogs_partial_failure (cfg : Config) (e : Registry)
    (ld : Logs) (f : Nat → Option String) (fr : Option String)
    (hflush : fr = none) :
    (logsToCWLogs ld).1.length + (logsToCWLogs ld).2
        = (flattenRecords ld).length ∧
    (logsToCWLogs ld).2
        = (flattenRecords ld).countP
            (fun x => (logToCWLog x.1 x.2).toOption.isNone) ∧
    (PushLogs cfg ⟨f, fr⟩ e ld).result = none := by
  refine ⟨?_, logsToCWLogs_dropped ld, ?_⟩
  · rw [logsToCWLogs_events, logsToCWLogs_dropped]
    exact length_filterMap_add_countP _ _
  · subst hflush
    simp only [PushLogs]
    split <;> rfl

/-- Witness for C7: five records with the third failing yield exactly four
appended events and one drop, and the call returns no error when the
flush succeeds. -/
theorem logsToCWLogs_partial_failure_witness :
    (logsToCWLogs batch5).1.length = 4 ∧
    (logsToCWLogs batch5).2 = 1 ∧
    (PushLogs cfg0 ⟨fun _ => none, none⟩ Registry.init batch5).result
      = none :=
  ⟨rfl, rfl,
   (logsToCWLogs_partial_failure cfg0 Registry.init batch5
     (fun _ => none) none rfl).2.2⟩

/-- C6: a batch with zero resource-log groups, or in which every record
fails translation, makes `PushLogs` return success with no `AddLogEntry`
and no `ForceFlush` call. -/
theorem PushLogs_empty_yield (cfg : Config) (env : PushEnv) (e : Registry)
    (ld : Logs)
    (h : ld.resourceLogs = [] ∨
      ∀ x ∈ flattenRecords ld, (logToCWLog x.1 x.2).toOption = none) :
    (PushLogs cfg env e ld).result = none ∧
    (PushLogs cfg env e ld).trace = [] := by
  have hev : (logsToCWLogs ld).1 = [] := by
    rcases h with h | h
    · unfold logsToCWLogs
      rw [h]
      rfl
    · rw [logsToCWLogs_events]
      exact List.filterMap_eq_nil_iff.mpr h
  constructor <;> (simp only [PushLogs]; rw [hev]; rfl)

/-- Witness for C6: a one-record batch whose record fails translation
returns success and never touches the pusher. -/
theorem PushLogs_empty_yield_witness :
    (PushLogs cfg0 ⟨fun _ => none, none⟩ Registry.init badBatch).result
        = none ∧
    (PushLogs cfg0 ⟨fun _ => none, none⟩ Registry.init badBatch).trace
        = [] :=
  PushLogs_empty_yield cfg0 ⟨fun _ => none, none⟩ Registry.init badBatch
    (Or.inr (by
      intro x hx
      have hx' : x = (attrsValue [], badRecord) := by
        simpa [flattenRecords, badBatch] using hx
      rw [hx']
      rfl))

/-- C2: for a batch yielding at least one event, the call's result is
exactly the `ForceFlush` error (non-nil iff the flush fails), and the
per-event `AddLogEntry` results influence neither the result nor the
sequence of pusher calls nor the registry. -/
theorem PushLogs_error_is_flush_error (cfg : Config) (e : Registry)
    (ld : Logs) (fr : Option String) (f f' : Nat → Option String)
    (h : (logsToCWLogs ld).1 ≠ []) :
    (PushLogs cfg ⟨f, fr⟩ e ld).result = fr ∧
    (PushLogs cfg ⟨f, fr⟩ e ld).trace = (PushLogs cfg ⟨f', fr⟩ e ld).trace ∧
    (PushLogs cfg ⟨f, fr⟩ e ld).registry
      = (PushLogs cfg ⟨f', fr⟩ e ld).registry := by
  have hlen : ¬((logsToCWLogs ld).1.length = 0) := by
    simpa [List.length_eq_zero] using h
  refine ⟨?_, ?_, ?_⟩ <;> (simp only [PushLogs]; simp only [if_neg hlen])

/-- Witness for C2: with every append failing and the flush failing, the
returned error is exactly the flush error. -/
theorem PushLogs_error_is_flush_error_witness :
    (PushLogs cfg0 ⟨fun _ => some "append failed", some "flush failed"⟩
        Registry.init singleBatch).result = some "flush failed" :=
  (PushLogs_error_is_flush_error cfg0 Registry.init singleBatch
    (some "flush failed") (fun _ => some "append failed") (fun _ => none)
    (List.cons_ne_nil _ _)).1

theorem assocLookup_set_self (k : String) (v : α) (l : List (String × α)) :
    assocLookup k (assocSet k v l) = some v := by
  induction l with
  | nil => simp [assocSet, assocLookup]
  | cons h t ih =>
    obtain ⟨k', v'⟩ := h
    by_cases hk : k' = k <;> simp [assocSet, assocLookup, hk, ih]

theorem assocLookup_set_ne (k₀ k : String) (v : α) (l : List (String × α))
    (hne : k ≠ k₀) :
    assocLookup k₀ (assocSet k v l) = assocLookup k₀ l := by
  induction l with
  | nil => simp [assocSet, assocLookup, hne]
  | cons h t ih =>
    obtain ⟨k', v'⟩ := h
    by_cases hk : k' = k
    · subst hk
      simp [assocSet, assocLookup, hne]
    · simp [assocSet, assocLookup, hk, ih]

theorem getLogPusher_hit (e : Registry) (g s : String) (p : Nat)
    (h : resolvedPusher e g s = some p) :
    getLogPusher e g s = (p, e) := by
  unfold resolvedPusher at h
  unfold getLogPusher
  simp only [h]

theorem getLogPusher_binds (e : Registry) (g s : String) :
    resolvedPusher (getLogPusher e g s).2 g s
      = some (getLogPusher e g s).1 := by
  unfold getLogPusher
  cases hm : assocLookup s ((assocLookup g e.groupStreamToPusherMap).getD [])
    with
  | some p =>
    simp only [hm]
    simpa [resolvedPusher] using hm
  | none =>
    simp only [hm]
    simp [resolvedPusher, assocLookup_set_self]

theorem getLogPusher_preserves (e : Registry) (g s : String) (p : Nat)
    (g' s' : String) (h : resolvedPusher e g s = some p) :
    resolvedPusher (getLogPusher e g' s').2 g s = some p := by
  by_cases hg : g' = g
  · subst hg
    by_cases hs : s' = s
    · subst hs
      rw [getLogPusher_hit e g' s' p h]
      exact h
    · unfold getLogPusher
      cases hm : assocLookup s'
          ((assocLookup g' e.groupStreamToPusherMap).getD []) with
      | some q =>
        simp only [hm]
        exact h
      | none =>
        simp only [hm]
        unfold resolvedPusher at h ⊢
        simp only [assocLookup_set_self, Option.getD_some]
        rw [assocLookup_set_ne s s' _ _ hs]
        exact h
  · unfold getLogPusher
    cases hm : assocLookup s'
        ((assocLookup g' e.groupStreamToPusherMap).getD []) with
    | some q =>
      simp only [hm]
      exact h
    | none =>
      simp only [hm]
      unfold resolvedPusher at h ⊢
      rw [assocLookup_set_ne g g' _ _ hg]
      exact h

theorem constructionsFor_bound (g s : String) (e : Registry)
    (ks : List (String × String)) (p : Nat)
    (h : resolvedPusher e g s = some p) :
    constructionsFor g s e ks = 0 := by
  induction ks generalizing e with
  | nil => rfl
  | cons k ks ih =>
    simp only [constructionsFor]
    rw [if_neg (by
      intro hc
      rw [h] at hc
      exact Option.noConfusion hc.2.2)]
    rw [ih _ (getLogPusher_preserves e g s p k.1 k.2 h)]

theorem constructionsFor_le_one (g s : String) (e : Registry)
    (ks : List (String × String)) :
    constructionsFor g s e ks ≤ 1 := by
  induction ks generalizing e with
  | nil => exact Nat.zero_le 1
  | cons k ks ih =>
    simp only [constructionsFor]
    by_cases hc : k.1 = g ∧ k.2 = s ∧ resolvedPusher e g s = none
    · rw [if_pos hc]
      have hb : resolvedPusher (getLogPusher e k.1 k.2).2 g s
          = some (getLogPusher e k.1 k.2).1 := by
        rw [hc.1, hc.2.1]
        exact getLogPusher_binds e g s
      rw [constructionsFor_bound g s _ ks _ hb]
    · rw [if_neg hc]
      simpa using ih ((getLogPusher e k.1 k.2).2)

/-- C4: destination resolution is memoizing: resolving the same key twice
returns the identity-same pusher without touching the registry; a bound
key is never rebound by any later call (same or different key); and over
any sequence of calls the constructor runs at most once per distinct key
(never for an already-bound key). -/
theorem getLogPusher_memoizes :
    (∀ e g s, getLogPusher (getLogPusher e g s).2 g s
        = ((getLogPusher e g s).1, (getLogPusher e g s).2)) ∧
    (∀ e g s p, resolvedPusher e g s = some p → getLogPusher e g s = (p, e)) ∧
    (∀ e g s p g' s', resolvedPusher e g s = some p →
      resolvedPusher (getLogPusher e g' s').2 g s = some p) ∧
    (∀ e g s p ks, resolvedPusher e g s = some p →
      constructionsFor g s e ks = 0) ∧
    (∀ e g s ks, constructionsFor g s e ks ≤ 1) :=
  ⟨fun e g s => getLogPusher_hit _ g s _ (getLogPusher_binds e g s),
   fun e g s p h => getLogPusher_hit e g s p h,
   fun e g s p g' s' h => getLogPusher_preserves e g s p g' s' h,
   fun _ g s p ks h => constructionsFor_bound g s _ ks p h,
   fun e g s ks => constructionsFor_le_one g s e ks⟩

/-- Witness for C4: a registry binding ("g","s") to pusher 0 returns
pusher 0 again, unchanged. -/
theorem getLogPusher_memoizes_witness :
    getLogPusher { groupStreamToPusherMap := [("g", [("s", 0)])],
                   nextPusherID := 1 } "g" "s"
      = (0, { groupStreamToPusherMap := [("g", [("s", 0)])],
              nextPusherID := 1 }) :=
  getLogPusher_memoizes.2.1
    { groupStreamToPusherMap := [("g", [("s", 0)])], nextPusherID := 1 }
    "g" "s" 0 rfl

/-- C9: `Shutdown` flushes exactly the pusher of the statically configured
(group, stream) — the trace is the one flush on that pusher, no append and
no flush on any other pusher — and returns nil (in the model the flush
outcome is discarded structurally, as the Go code drops it). -/
theorem Shutdown_flushes_only_configured (cfg : Config) (e : Registry) :
    (Shutdown cfg e).result = none ∧
    (Shutdown cfg e).trace =
      [PusherOp.forceFlush
        (getLogPusher e cfg.LogGroupName cfg.LogStreamName).1] ∧
    (∀ q, PusherOp.forceFlush q ∈ (Shutdown cfg e).trace →
      q = (getLogPusher e cfg.LogGroupName cfg.LogStreamName).1) ∧
    (∀ q ev, PusherOp.addLogEntry q ev ∉ (Shutdown cfg e).trace) := by
  refine ⟨rfl, rfl, ?_, ?_⟩
  · intro q hq
    simp only [Shutdown, List.mem_singleton] at hq
    injection hq
  · intro q ev hq
    simp [Shutdown] at hq

/-- Witness for C9: in a fresh registry under `cfg0`, the only flushed
pusher is the configured destination's (pusher 0). -/
theorem Shutdown_flushes_only_configured_witness :
    (0 : Nat)
      = (getLogPusher Registry.init cfg0.LogGroupName cfg0.LogStreamName).1 :=
  (Shutdown_flushes_only_configured cfg0 Registry.init).2.2.1 0
    (List.Mem.head _)

theorem mutexInv_init (T : Type) [DecidableEq T] : MutexInv (initCfg T) := by
  refine ⟨?_, ?_, ?_, ?_⟩
  · intro t _ e he
    simp [initCfg] at he
  · intro t h
    rcases h with ⟨k, hk⟩ | hk <;> simp [initCfg] at hk
  · intro t h
    simp [initCfg] at h
  · intro t
    exact ⟨[], [], [], rfl, by simp, by simp, by simp⟩

theorem mutexInv_step {T : Type} [DecidableEq T] (batch : T → Nat)
    {c c' : MutexCfg T} (hstep : PushStep batch c c') (hinv : MutexInv c) :
    MutexInv c' := by
  obtain ⟨h1, h2, h3, h4⟩ := hinv
  cases hstep with
  | lock t c0 hpc hlk =>
    refine ⟨?_, ?_, ?_, ?_⟩
    · intro t' hpc' e he
      dsimp only at hpc' he
      simp only [updatePC] at hpc'
      by_cases ht : t' = t
      · rw [if_pos ht] at hpc'
        exact absurd hpc' (by simp)
      · rw [if_neg ht] at hpc'
        exact h1 t' hpc' e he
    · intro t' hact
      dsimp only at hact ⊢
      simp only [updatePC] at hact
      by_cases ht : t' = t
      · rw [ht]
      · simp only [if_neg ht] at hact
        have := h2 t' hact
        rw [hlk] at this
        exact Option.noConfusion this
    · intro t' hl
      dsimp only at hl ⊢
      injection hl with hl'
      subst hl'
      exact ⟨c.trace, [], by simp, h1 t hpc, by simp⟩
    · intro t'
      exact h4 t'
  | append t k c0 hpc =>
    have hlk : c.state.lock = some t := h2 t (Or.inl ⟨k + 1, hpc⟩)
    obtain ⟨pre, mid, htr, hpre, hmid⟩ := h3 t hlk
    refine ⟨?_, ?_, ?_, ?_⟩
    · intro t' hpc' e he
      dsimp only at hpc' he
      simp only [updatePC] at hpc'
      by_cases ht : t' = t
      · rw [if_pos ht] at hpc'
        exact absurd hpc' (by simp)
      · rw [if_neg ht] at hpc'
        rcases List.mem_append.mp he with h | h
        · exact h1 t' hpc' e h
        · rw [List.mem_singleton.mp h]
          exact fun hh => ht hh.symm
    · intro t' hact
      dsimp only at hact ⊢
      simp only [updatePC] at hact
      by_cases ht : t' = t
      · rw [ht]
        exact hlk
      · simp only [if_neg ht] at hact
        exact h2 t' hact
    · intro t' hl
      dsimp only at hl ⊢
      rw [hlk] at hl
      injection hl with hl'
      subst hl'
      refine ⟨pre, mid ++ [.append t], ?_, hpre, ?_⟩
      · rw [htr, List.append_assoc]
      · intro e he
        rcases List.mem_append.mp he with h | h
        · exact hmid e h
        · rw [List.mem_singleton.mp h]
          rfl
    · intro t'
      dsimp only
      by_cases ht : t' = t
      · subst ht
        refine ⟨pre, mid ++ [.append t'], [], ?_, hpre, ?_, by simp⟩
        · rw [htr, List.append_assoc, List.append_nil]
        · intro e he
          rcases List.mem_append.mp he with h | h
          · exact hmid e h
          · rw [List.mem_singleton.mp h]
            rfl
      · obtain ⟨p, m, q, htr4, hp, hm, hq⟩ := h4 t'
        refine ⟨p, m, q ++ [.append t], ?_, hp, hm, ?_⟩
        · rw [htr4, List.append_assoc, List.append_assoc]
        · intro e he
          rcases List.mem_append.mp he with h | h
          · exact hq e h
          · rw [List.mem_singleton.mp h]
            exact fun hh => ht hh.symm
  | flush t c0 hpc =>
    have hlk : c.state.lock = some t := h2 t (Or.inl ⟨0, hpc⟩)
    obtain ⟨pre, mid, htr, hpre, hmid⟩ := h3 t hlk
    refine ⟨?_, ?_, ?_, ?_⟩
    · intro t' hpc' e he
      dsimp only at hpc' he
      simp only [updatePC] at hpc'
      by_cases ht : t' = t
      · rw [if_pos ht] at hpc'
        exact absurd hpc' (by simp)
      · rw [if_neg ht] at hpc'
        rcases List.mem_append.mp he with h | h
        · exact h1 t' hpc' e h
        · rw [List.mem_singleton.mp h]
          exact fun hh => ht hh.symm
    · intro t' hact
      dsimp only at hact ⊢
      simp only [updatePC] at hact
      by_cases ht : t' = t
      · rw [ht]
        exact hlk
      · simp only [if_neg ht] at hact
        exact h2 t' hact
    · intro t' hl
      dsimp only at hl ⊢
      rw [hlk] at hl
      injection hl with hl'
      subst hl'
      refine ⟨pre, mid ++ [.flush t], ?_, hpre, ?_⟩
      · rw [htr, List.append_assoc]
      · intro e he
        rcases List.mem_append.mp he with h | h
        · exact hmid e h
        · rw [List.mem_singleton.mp h]
          rfl
    · intro t'
      dsimp only
      by_cases ht : t' = t
      · subst ht
        refine ⟨pre, mid ++ [.flush t'], [], ?_, hpre, ?_, by simp⟩
        · rw [htr, List.append_assoc, List.append_nil]
        · intro e he
          rcases List.mem_append.mp he with h | h
          · exact hmid e h
          · rw [List.mem_singleton.mp h]
            rfl
      · obtain ⟨p, m, q, htr4, hp, hm, hq⟩ := h4 t'
        refine ⟨p, m, q ++ [.flush t], ?_, hp, hm, ?_⟩
        · rw [htr4, List.append_assoc, List.append_assoc]
        · intro e he
          rcases List.mem_append.mp he with h | h
          · exact hq e h
          · rw [List.mem_singleton.mp h]
            exact fun hh => ht hh.symm
  | unlock t c0 hpc =>
    refine ⟨?_, ?_, ?_, ?_⟩
    · intro t' hpc' e he
      dsimp only at hpc' he
      simp only [updatePC] at hpc'
      by_cases ht : t' = t
      · rw [if_pos ht] at hpc'
        exact absurd hpc' (by simp)
      · rw [if_neg ht] at hpc'
        exact h1 t' hpc' e he
    · intro t' hact
      exfalso
      dsimp only at hact
      simp only [updatePC] at hact
      by_cases ht : t' = t
      · subst ht
        simp only [if_pos rfl] at hact
        rcases hact with ⟨k, hk⟩ | hk <;> simp at hk
      · simp only [if_neg ht] at hact
        have := h2 t' hact
        rw [h2 t (Or.inr hpc)] at this
        injection this with hl'
        exact ht hl'.symm
    · intro t' hl
      exact Option.noConfusion hl
    · intro t'
      exact h4 t'

theorem mutexInv_reaches {T : Type} [DecidableEq T] (batch : T → Nat)
    (c : MutexCfg T) (h : Reaches batch (initCfg T) c) : MutexInv c := by
  induction h with
  | refl => exact mutexInv_init T
  | tail _ hstep ih => exact mutexInv_step batch hstep ih

/-- C1: concurrent `PushLogs` calls are serialized by the single mutex
`seqTokenMu`: in every reachable interleaving of any number of calls
(across any destinations — the lock does not depend on the destination),
each call's append/flush events form one contiguous block of the global
trace, so one call's entire append-and-flush sequence completes before
any other call's events begin; no two calls' append sequences ever
interleave with each other's flush. -/
theorem PushLogs_serialized {T : Type} [DecidableEq T] (batch : T → Nat)
    (c : MutexCfg T) (h : Reaches batch (initCfg T) c) :
    ∀ t, Contig t c.trace :=
  (mutexInv_reaches batch c h).2.2.2

/-- Witness for C1: a complete two-thread interleaved run — thread `true`
locks, appends, flushes, unlocks, then thread `false` does the same — and
the first thread's events are contiguous in the resulting trace. -/
theorem PushLogs_serialized_witness :
    Contig true [CritEvent.append true, CritEvent.flush true,
      CritEvent.append false, CritEvent.flush false] :=
  PushLogs_serialized (fun _ => 1) _
    (Reaches.tail (Reaches.tail (Reaches.tail (Reaches.tail
      (Reaches.tail (Reaches.tail (Reaches.tail (Reaches.tail
        (Reaches.refl _)
        (PushStep.lock true _ rfl rfl))
        (PushStep.append true 0 _ rfl))
        (PushStep.flush true _ rfl))
        (PushStep.unlock true _ rfl))
        (PushStep.lock false _ rfl rfl))
        (PushStep.append false 0 _ rfl))
        (PushStep.flush false _ rfl))
        (PushStep.unlock false _ rfl))
    true
